import Mathlib

/-!
Shallow embedding of the ERC-20 ledger contract in `src/lib.rs` (ink! module
`erc20`). Account identifiers are opaque comparable keys, modelled as `Nat`;
`Balance` is the contract's `u128` amount type, modelled as `Nat` with the
bound `U128 = 2 ^ 128` made explicit where overflow matters. The two
`ink_storage::Mapping` fields are modelled as association lists where a
storage `insert` replaces any previous entry for the key and a `get` of an
absent key yields `none` (read back as the default 0, as the source's
`unwrap_or_default` does).
-/

namespace Erc20Spec

abbrev AccountId := Nat

/-- Bound of the `u128` amount type: `2 ^ 128`. -/
def U128 : Nat := 2 ^ 128

/-- The ERC-20 error type of `src/lib.rs` (`enum Error`). -/
inductive Error where
  | InsufficientBalance
  | InsufficientAllowance
deriving DecidableEq, Repr

/-- Lookup in an `ink_storage::Mapping`, embedded as an association list:
the value of the first entry with the given key, or `none`. -/
def mget {κ ν : Type} [DecidableEq κ] : List (κ × ν) → κ → Option ν
  | [], _ => none
  | p :: m, k => if p.1 = k then some p.2 else mget m k

/-- Write into an `ink_storage::Mapping`: the new entry replaces any previous
entry with the same key. -/
def minsert {κ ν : Type} [DecidableEq κ] (m : List (κ × ν)) (k : κ) (v : ν) :
    List (κ × ν) :=
  (k, v) :: m.filter (fun p => decide (p.1 ≠ k))

/-- Keys of a mapping. -/
def keys {κ ν : Type} (m : List (κ × ν)) : List κ := m.map Prod.fst

/-- Lookup with the amount default 0 (`get(..).unwrap_or_default()`). -/
def getD0 {κ : Type} [DecidableEq κ] (m : List (κ × Nat)) (k : κ) : Nat :=
  (mget m k).getD 0

/-- Sum of all stored values of a mapping. -/
def sumB {κ : Type} (m : List (κ × Nat)) : Nat := (m.map Prod.snd).sum

/-- The contract storage (`struct Erc20` of `src/lib.rs`). -/
structure Erc20 where
  total_supply : Nat
  balances : List (AccountId × Nat)
  allowances : List ((AccountId × AccountId) × Nat)
deriving DecidableEq, Repr

/-- Constructor `Erc20::new`: `total_supply = initial_supply` and the whole
supply is inserted as the caller's balance; allowances start empty. -/
def Erc20.new (caller : AccountId) (initial_supply : Nat) : Erc20 :=
  { total_supply := initial_supply
    balances := minsert [] caller initial_supply
    allowances := [] }

/-- Private helper `balance_of_impl`: stored balance or 0. -/
def Erc20.balance_of_impl (s : Erc20) (owner : AccountId) : Nat :=
  getD0 s.balances owner

/-- Message `balance_of`: stored balance or 0. -/
def Erc20.balance_of (s : Erc20) (owner : AccountId) : Nat :=
  getD0 s.balances owner

/-- Private helper `allowance_impl`: stored allowance or 0. -/
def Erc20.allowance_impl (s : Erc20) (owner spender : AccountId) : Nat :=
  getD0 s.allowances (owner, spender)

/-- Message `allowance`: delegates to `allowance_impl`. -/
def Erc20.allowance (s : Erc20) (owner spender : AccountId) : Nat :=
  s.allowance_impl owner spender

/-- Modelled from the spec: the overflow behavior of the `u128` addition
`to_balance + value` in `transfer_from_to` is fixed by the build profile
(the crate's Cargo.toml, which is not among the repository's source files);
the spec requires that "all arithmetic on amounts must be checked for
overflow/underflow and must fail rather than wrap". Checked `u128` addition:
`some` of the exact sum when it is representable, `none` (an arithmetic trap
that aborts and reverts the whole operation) otherwise. -/
def checked_add (a b : Nat) : Option Nat :=
  if a + b < U128 then some (a + b) else none

/-- Outcome of one contract message on the storage: `ok` with the new
storage, `err` with the storage as the early `return Err(..)` leaves it, or
`panic` for an arithmetic trap, which reverts the storage to the state at
entry of the message. -/
inductive Outcome where
  | ok (s : Erc20)
  | err (e : Error) (s : Erc20)
  | panic (s : Erc20)
deriving DecidableEq, Repr

/-- Storage after the message, whichever the outcome. -/
def Outcome.state : Outcome → Erc20
  | .ok s => s
  | .err _ s => s
  | .panic s => s

/-- Private helper `transfer_from_to` of `src/lib.rs`: check
`from_balance < value` (else `InsufficientBalance` before any write), write
`from_balance - value` for `from_`, then read `to_`'s balance from the
updated storage and write `to_balance + value` (checked). -/
def Erc20.transfer_from_to (s : Erc20) (from_ to_ : AccountId) (value : Nat) :
    Outcome :=
  let from_balance := s.balance_of_impl from_
  if from_balance < value then
    .err .InsufficientBalance s
  else
    let s1 : Erc20 := { s with balances := minsert s.balances from_ (from_balance - value) }
    let to_balance := s1.balance_of_impl to_
    match checked_add to_balance value with
    | none => .panic s
    | some nb => .ok { s1 with balances := minsert s1.balances to_ nb }

/-- Message `transfer`: `transfer_from_to` with the caller as source. -/
def Erc20.transfer (s : Erc20) (caller to_ : AccountId) (value : Nat) : Outcome :=
  s.transfer_from_to caller to_ value

/-- Message `approve`: unconditionally store `value` as the allowance of
`(caller, spender)` and return `Ok(())`. -/
def Erc20.approve (s : Erc20) (caller spender : AccountId) (value : Nat) :
    Outcome :=
  .ok { s with allowances := minsert s.allowances (caller, spender) value }

/-- Message `transfer_from`: read `allowance(from_, caller)`, fail with
`InsufficientAllowance` when it is below `value`, otherwise run
`transfer_from_to` (propagating its failure via `?`) and on its success
store the decremented allowance. -/
def Erc20.transfer_from (s : Erc20) (caller from_ to_ : AccountId) (value : Nat) :
    Outcome :=
  let allowance := s.allowance_impl from_ caller
  if allowance < value then
    .err .InsufficientAllowance s
  else
    match s.transfer_from_to from_ to_ value with
    | .ok s1 => .ok { s1 with allowances := minsert s1.allowances (from_, caller) (allowance - value) }
    | .err e s1 => .err e s1
    | .panic s1 => .panic s1

/-- States reachable from construction by any sequence of `transfer`,
`approve` and `transfer_from` calls (failed calls included: they contribute
their unchanged resulting storage). The constructor's `initial_supply` is a
`u128`, hence below `U128`. -/
inductive Reachable : Erc20 → Prop where
  | init (caller : AccountId) (initial_supply : Nat)
      (h : initial_supply < U128) :
      Reachable (Erc20.new caller initial_supply)
  | step_transfer {s : Erc20} (caller to_ : AccountId) (value : Nat) :
      Reachable s → Reachable (s.transfer caller to_ value).state
  | step_approve {s : Erc20} (caller spender : AccountId) (value : Nat) :
      Reachable s → Reachable (s.approve caller spender value).state
  | step_transfer_from {s : Erc20} (caller from_ to_ : AccountId) (value : Nat) :
      Reachable s → Reachable (s.transfer_from caller from_ to_ value).state

/-! Lemmas about the mapping embedding. -/

theorem mget_eq_none {κ ν : Type} [DecidableEq κ] {m : List (κ × ν)} {k : κ}
    (h : k ∉ keys m) : mget m k = none := by
  induction m with
  | nil => rfl
  | cons p t ih =>
    simp only [keys, List.map_cons, List.mem_cons, not_or] at h
    rw [mget, if_neg (fun hh => h.1 hh.symm)]
    exact ih (by simpa [keys] using h.2)

theorem mem_of_mget {κ ν : Type} [DecidableEq κ] {m : List (κ × ν)} {k : κ} {v : ν}
    (h : mget m k = some v) : (k, v) ∈ m := by
  induction m with
  | nil => exact absurd h (by simp [mget])
  | cons p t ih =>
    rw [mget] at h
    by_cases hk : p.1 = k
    · rw [if_pos hk] at h
      injection h with h2
      exact List.mem_cons.mpr (Or.inl (by rw [← hk, ← h2]))
    · rw [if_neg hk] at h
      exact List.mem_cons_of_mem _ (ih h)

theorem mget_filter_ne {κ ν : Type} [DecidableEq κ] (m : List (κ × ν)) {k k' : κ}
    (h : k' ≠ k) : mget (m.filter (fun p => decide (p.1 ≠ k))) k' = mget m k' := by
  induction m with
  | nil => rfl
  | cons p t ih =>
    by_cases hp : p.1 = k
    · rw [List.filter_cons_of_neg (by simp [hp]), ih, mget,
        if_neg (fun hh => h (hh.symm.trans hp))]
    · rw [List.filter_cons_of_pos (by simp [hp]), mget, mget]
      by_cases hk : p.1 = k'
      · rw [if_pos hk, if_pos hk]
      · rw [if_neg hk, if_neg hk, ih]

theorem getD0_minsert_self {κ : Type} [DecidableEq κ] (m : List (κ × Nat))
    (k : κ) (v : Nat) : getD0 (minsert m k v) k = v := by
  simp [getD0, minsert, mget]

theorem getD0_minsert_ne {κ : Type} [DecidableEq κ] (m : List (κ × Nat))
    {k k' : κ} (v : Nat) (h : k' ≠ k) :
    getD0 (minsert m k v) k' = getD0 m k' := by
  rw [getD0, minsert, mget, if_neg (fun hh => h hh.symm), mget_filter_ne _ h, getD0]

theorem getD0_le_sumB {κ : Type} [DecidableEq κ] (m : List (κ × Nat)) (k : κ) :
    getD0 m k ≤ sumB m := by
  induction m with
  | nil => exact Nat.le_refl 0
  | cons p t ih =>
    rw [getD0, mget, sumB, List.map_cons, List.sum_cons]
    by_cases hk : p.1 = k
    · rw [if_pos hk]
      exact Nat.le_add_right _ _
    · rw [if_neg hk]
      exact Nat.le_trans ih (Nat.le_add_left _ _)

theorem sumB_filter_add {κ : Type} [DecidableEq κ] (m : List (κ × Nat)) (k : κ)
    (hnd : (keys m).Nodup) :
    sumB (m.filter (fun p => decide (p.1 ≠ k))) + getD0 m k = sumB m := by
  induction m with
  | nil => rfl
  | cons p t ih =>
    rw [keys, List.map_cons, List.nodup_cons] at hnd
    by_cases hp : p.1 = k
    · have hnot : k ∉ keys t := by
        rw [← hp]
        simpa [keys] using hnd.1
      have hfil : t.filter (fun q => decide (q.1 ≠ k)) = t := by
        apply List.filter_eq_self.mpr
        intro q hq
        simp only [decide_eq_true_eq]
        exact fun hh => hnot (hh ▸ List.mem_map_of_mem Prod.fst hq)
      rw [List.filter_cons_of_neg (by simp [hp]), hfil, getD0, mget, if_pos hp]
      simp only [sumB, List.map_cons, List.sum_cons, Option.getD_some]
      omega
    · have := ih (by simpa [keys] using hnd.2)
      rw [List.filter_cons_of_pos (by simp [hp])]
      simp only [sumB, getD0, List.map_cons, List.sum_cons, mget, if_neg hp] at this ⊢
      omega

theorem sumB_minsert {κ : Type} [DecidableEq κ] (m : List (κ × Nat)) (k : κ)
    (v : Nat) (hnd : (keys m).Nodup) :
    sumB (minsert m k v) + getD0 m k = sumB m + v := by
  rw [minsert, sumB, List.map_cons, List.sum_cons]
  have := sumB_filter_add m k hnd
  rw [sumB] at this
  omega

theorem nodup_keys_minsert {κ : Type} [DecidableEq κ] (m : List (κ × Nat))
    (k : κ) (v : Nat) (hnd : (keys m).Nodup) :
    (keys (minsert m k v)).Nodup := by
  rw [minsert, keys, List.map_cons, List.nodup_cons]
  constructor
  · intro hmem
    rcases List.mem_map.mp hmem with ⟨q, hq, hq1⟩
    rcases List.mem_filter.mp hq with ⟨_, hq2⟩
    exact (decide_eq_true_eq.mp hq2) hq1
  · exact ((List.filter_sublist m).map Prod.fst).nodup hnd

theorem mem_minsert {κ : Type} [DecidableEq κ] {m : List (κ × Nat)} {k : κ}
    {v : Nat} {p : κ × Nat} (h : p ∈ minsert m k v) : p = (k, v) ∨ p ∈ m := by
  rw [minsert] at h
  rcases List.mem_cons.mp h with h1 | h2
  · exact Or.inl h1
  · exact Or.inr (List.mem_of_mem_filter h2)

theorem mem_le_sumB {κ : Type} {m : List (κ × Nat)} {k : κ} {v : Nat}
    (h : (k, v) ∈ m) : v ≤ sumB m := by
  induction m with
  | nil => cases h
  | cons p t ih =>
    rw [sumB, List.map_cons, List.sum_cons]
    rcases List.mem_cons.mp h with h1 | h2
    · rw [← h1]
      exact Nat.le_add_right _ _
    · exact Nat.le_trans (ih h2) (Nat.le_add_left _ _)

/-! Branch-explicit form of `transfer_from_to` and the ledger invariant. -/

theorem tft_eq (s : Erc20) (f t : AccountId) (v : Nat) :
    s.transfer_from_to f t v =
      (if s.balance_of_impl f < v then .err .InsufficientBalance s
       else
        if getD0 (minsert s.balances f (s.balance_of_impl f - v)) t + v < U128 then
          .ok { s with balances := (minsert (minsert s.balances f (s.balance_of_impl f - v)) t
                  (getD0 (minsert s.balances f (s.balance_of_impl f - v)) t + v)) }
        else .panic s) := by
  by_cases h1 : s.balance_of_impl f < v
  · simp [Erc20.transfer_from_to, h1]
  · by_cases h2 : getD0 (minsert s.balances f (s.balance_of_impl f - v)) t + v < U128
    all_goals
      simp only [Erc20.balance_of_impl] at h1 h2 ⊢
      simp [Erc20.transfer_from_to, checked_add, Erc20.balance_of_impl, h1, h2]

/-- Ledger invariant: the keys of the balances mapping are distinct (storage
holds one slot per key), the stored balances sum to `total_supply`, and
`total_supply` is a `u128` value. -/
structure Inv (s : Erc20) : Prop where
  nodupB : (keys s.balances).Nodup
  sum_eq : sumB s.balances = s.total_supply
  ts_lt : s.total_supply < U128

theorem inv_init (caller : AccountId) (v : Nat) (h : v < U128) :
    Inv (Erc20.new caller v) := by
  refine ⟨?_, ?_, h⟩
  · simp [Erc20.new, minsert, keys]
  · simp [Erc20.new, minsert, sumB]

theorem inv_tft (s : Erc20) (f t : AccountId) (v : Nat) (hs : Inv s) :
    Inv (s.transfer_from_to f t v).state := by
  rw [tft_eq]
  by_cases h1 : s.balance_of_impl f < v
  · rw [if_pos h1]
    exact hs
  · rw [if_neg h1]
    by_cases h2 : getD0 (minsert s.balances f (s.balance_of_impl f - v)) t + v < U128
    · rw [if_pos h2]
      have hfb_le : s.balance_of_impl f ≤ sumB s.balances := getD0_le_sumB _ _
      have hs1 := sumB_minsert s.balances f (s.balance_of_impl f - v) hs.nodupB
      rw [show getD0 s.balances f = s.balance_of_impl f from rfl] at hs1
      have hnd1 := nodup_keys_minsert s.balances f (s.balance_of_impl f - v) hs.nodupB
      have htb_le : getD0 (minsert s.balances f (s.balance_of_impl f - v)) t
          ≤ sumB (minsert s.balances f (s.balance_of_impl f - v)) := getD0_le_sumB _ _
      have hs2 := sumB_minsert (minsert s.balances f (s.balance_of_impl f - v)) t
        (getD0 (minsert s.balances f (s.balance_of_impl f - v)) t + v) hnd1
      refine ⟨nodup_keys_minsert _ _ _ hnd1, ?_, hs.ts_lt⟩
      have hsum := hs.sum_eq
      simp only [Outcome.state]
      omega
    · rw [if_neg h2]
      exact hs

theorem inv_transfer (s : Erc20) (c t : AccountId) (v : Nat) (hs : Inv s) :
    Inv (s.transfer c t v).state :=
  inv_tft s c t v hs

theorem inv_approve (s : Erc20) (c sp : AccountId) (v : Nat) (hs : Inv s) :
    Inv (s.approve c sp v).state :=
  ⟨hs.nodupB, hs.sum_eq, hs.ts_lt⟩

theorem inv_transfer_from (s : Erc20) (c f t : AccountId) (v : Nat) (hs : Inv s) :
    Inv (s.transfer_from c f t v).state := by
  simp only [Erc20.transfer_from]
  by_cases h1 : s.allowance_impl f c < v
  · simp only [if_pos h1, Outcome.state]
    exact hs
  · simp only [if_neg h1]
    have h2 := inv_tft s f t v hs
    cases hmatch : s.transfer_from_to f t v with
    | ok s1 =>
      rw [hmatch] at h2
      dsimp only [Outcome.state] at h2 ⊢
      exact ⟨h2.nodupB, h2.sum_eq, h2.ts_lt⟩
    | err e s1 =>
      rw [hmatch] at h2
      dsimp only [Outcome.state] at h2 ⊢
      exact h2
    | panic s1 =>
      rw [hmatch] at h2
      dsimp only [Outcome.state] at h2 ⊢
      exact h2

theorem reachable_inv {s : Erc20} (h : Reachable s) : Inv s := by
  induction h with
  | init c v hv => exact inv_init c v hv
  | step_transfer c t v _ ih => exact inv_transfer _ c t v ih
  | step_approve c sp v _ ih => exact inv_approve _ c sp v ih
  | step_transfer_from c f t v _ ih => exact inv_transfer_from _ c f t v ih

/-- In a state satisfying the invariant, the checked addition of
`transfer_from_to` never overflows: the operation never traps. -/
theorem tft_no_panic {s : Erc20} (hs : Inv s) (f t : AccountId) (v : Nat)
    (s' : Erc20) : s.transfer_from_to f t v ≠ .panic s' := by
  rw [tft_eq]
  by_cases h1 : s.balance_of_impl f < v
  · rw [if_pos h1]
    intro h
    cases h
  · rw [if_neg h1]
    by_cases h2 : getD0 (minsert s.balances f (s.balance_of_impl f - v)) t + v < U128
    · rw [if_pos h2]
      intro h
      cases h
    · exfalso
      have hfb_le : s.balance_of_impl f ≤ sumB s.balances := getD0_le_sumB _ _
      have hs1 := sumB_minsert s.balances f (s.balance_of_impl f - v) hs.nodupB
      rw [show getD0 s.balances f = s.balance_of_impl f from rfl] at hs1
      have htb_le : getD0 (minsert s.balances f (s.balance_of_impl f - v)) t
          ≤ sumB (minsert s.balances f (s.balance_of_impl f - v)) := getD0_le_sumB _ _
      have hsum := hs.sum_eq
      have hts := hs.ts_lt
      omega

/-! Outcome characterizations of the two fallible operations. -/

theorem tft_err_iff (s : Erc20) (f t : AccountId) (v : Nat) (e : Error) (s' : Erc20) :
    s.transfer_from_to f t v = .err e s' ↔
      (s.balance_of_impl f < v ∧ e = .InsufficientBalance ∧ s' = s) := by
  rw [tft_eq]
  by_cases h1 : s.balance_of_impl f < v
  · rw [if_pos h1]
    constructor
    · intro h
      injection h with he hs
      exact ⟨h1, he.symm, hs.symm⟩
    · rintro ⟨_, he, hs⟩
      rw [he, hs]
  · rw [if_neg h1]
    by_cases h2 : getD0 (minsert s.balances f (s.balance_of_impl f - v)) t + v < U128
    · rw [if_pos h2]
      constructor
      · intro h
        cases h
      · rintro ⟨hlt, _, _⟩
        exact absurd hlt h1
    · rw [if_neg h2]
      constructor
      · intro h
        cases h
      · rintro ⟨hlt, _, _⟩
        exact absurd hlt h1

theorem tft_ok_iff (s : Erc20) (f t : AccountId) (v : Nat) (s' : Erc20) :
    s.transfer_from_to f t v = .ok s' ↔
      (¬ s.balance_of_impl f < v ∧
       getD0 (minsert s.balances f (s.balance_of_impl f - v)) t + v < U128 ∧
       s' = { s with balances := (minsert (minsert s.balances f (s.balance_of_impl f - v)) t
                (getD0 (minsert s.balances f (s.balance_of_impl f - v)) t + v)) }) := by
  rw [tft_eq]
  by_cases h1 : s.balance_of_impl f < v
  · rw [if_pos h1]
    constructor
    · intro h
      cases h
    · rintro ⟨hn, _, _⟩
      exact absurd h1 hn
  · rw [if_neg h1]
    by_cases h2 : getD0 (minsert s.balances f (s.balance_of_impl f - v)) t + v < U128
    · rw [if_pos h2]
      constructor
      · intro h
        injection h with hs
        exact ⟨h1, h2, hs.symm⟩
      · rintro ⟨_, _, hs⟩
        rw [hs]
    · rw [if_neg h2]
      constructor
      · intro h
        cases h
      · rintro ⟨_, h2', _⟩
        exact absurd h2' h2

theorem tft_panic_iff (s : Erc20) (f t : AccountId) (v : Nat) (s' : Erc20) :
    s.transfer_from_to f t v = .panic s' ↔
      (¬ s.balance_of_impl f < v ∧
       ¬ getD0 (minsert s.balances f (s.balance_of_impl f - v)) t + v < U128 ∧
       s' = s) := by
  rw [tft_eq]
  by_cases h1 : s.balance_of_impl f < v
  · rw [if_pos h1]
    constructor
    · intro h
      cases h
    · rintro ⟨hn, _, _⟩
      exact absurd h1 hn
  · rw [if_neg h1]
    by_cases h2 : getD0 (minsert s.balances f (s.balance_of_impl f - v)) t + v < U128
    · rw [if_pos h2]
      constructor
      · intro h
        cases h
      · rintro ⟨_, hn2, _⟩
        exact absurd h2 hn2
    · rw [if_neg h2]
      constructor
      · intro h
        injection h with hs
        exact ⟨h1, h2, hs.symm⟩
      · rintro ⟨_, _, hs⟩
        rw [hs]

theorem tf_err_iff (s : Erc20) (c f t : AccountId) (v : Nat) (e : Error) (s' : Erc20) :
    s.transfer_from c f t v = .err e s' ↔
      ((s.allowance_impl f c < v ∧ e = .InsufficientAllowance ∧ s' = s) ∨
       (¬ s.allowance_impl f c < v ∧ s.balance_of_impl f < v ∧
        e = .InsufficientBalance ∧ s' = s)) := by
  simp only [Erc20.transfer_from]
  by_cases h1 : s.allowance_impl f c < v
  · rw [if_pos h1]
    constructor
    · intro h
      injection h with he hs
      exact Or.inl ⟨h1, he.symm, hs.symm⟩
    · rintro (⟨_, he, hs⟩ | ⟨hn, _, _, _⟩)
      · rw [he, hs]
      · exact absurd h1 hn
  · rw [if_neg h1]
    cases hmatch : s.transfer_from_to f t v with
    | ok s1 =>
      dsimp only
      constructor
      · intro h
        cases h
      · rintro (⟨hlt, _, _⟩ | ⟨_, hfb, _, _⟩)
        · exact absurd hlt h1
        · exact absurd hfb ((tft_ok_iff s f t v s1).mp hmatch).1
    | err e1 s1 =>
      dsimp only
      rcases (tft_err_iff s f t v e1 s1).mp hmatch with ⟨hfb, he1, hs1⟩
      constructor
      · intro h
        injection h with he hs
        exact Or.inr ⟨h1, hfb, he ▸ he1, hs ▸ hs1⟩
      · rintro (⟨hlt, _, _⟩ | ⟨_, _, he, hs⟩)
        · exact absurd hlt h1
        · rw [he1, hs1, he, hs]
    | panic s1 =>
      dsimp only
      constructor
      · intro h
        cases h
      · rintro (⟨hlt, _, _⟩ | ⟨_, hfb, _, _⟩)
        · exact absurd hlt h1
        · exact absurd hfb ((tft_panic_iff s f t v s1).mp hmatch).1

theorem tf_ok_iff (s : Erc20) (c f t : AccountId) (v : Nat) (s' : Erc20) :
    s.transfer_from c f t v = .ok s' ↔
      (¬ s.allowance_impl f c < v ∧
       ∃ s1, s.transfer_from_to f t v = .ok s1 ∧
         s' = { s1 with allowances := (minsert s1.allowances (f, c)
                  (s.allowance_impl f c - v)) }) := by
  simp only [Erc20.transfer_from]
  by_cases h1 : s.allowance_impl f c < v
  · rw [if_pos h1]
    constructor
    · intro h
      cases h
    · rintro ⟨hn, _⟩
      exact absurd h1 hn
  · rw [if_neg h1]
    cases hmatch : s.transfer_from_to f t v with
    | ok s1 =>
      dsimp only
      constructor
      · intro h
        injection h with hs
        exact ⟨h1, s1, rfl, hs.symm⟩
      · rintro ⟨_, s2, hs2, hs'⟩
        rw [Outcome.ok.injEq] at hs2
        rw [hs', hs2]
    | err e1 s1 =>
      dsimp only
      constructor
      · intro h
        cases h
      · rintro ⟨_, s2, hs2, _⟩
        cases hs2
    | panic s1 =>
      dsimp only
      constructor
      · intro h
        cases h
      · rintro ⟨_, s2, hs2, _⟩
        cases hs2

/-! Claim theorems. -/

/-- C1: for every state reachable from construction by any sequence of
`transfer`, `approve` and `transfer_from` operations, the sum of all stored
balances equals `total_supply`. -/
theorem C1_sum_balances_eq_total_supply (s : Erc20) (h : Reachable s) :
    sumB s.balances = s.total_supply :=
  (reachable_inv h).sum_eq

/-- C1 witness: the invariant evaluated on the concrete reachable state
after constructing with supply 100 for account 1 and transferring 30 to
account 2. -/
theorem C1_sum_balances_eq_total_supply_witness :
    sumB (((Erc20.new 1 100).transfer 1 2 30).state).balances
      = (((Erc20.new 1 100).transfer 1 2 30).state).total_supply :=
  C1_sum_balances_eq_total_supply _
    (Reachable.step_transfer 1 2 30 (Reachable.init 1 100 (by decide)))

/-- C2 counterexample: the claim says every allowances entry is at most
`total_supply`, but `approve` stores the requested value without any bound
check. Constructing with supply 100 and approving 200 reaches a state whose
allowances mapping holds an entry above `total_supply`. -/
theorem C2_allowance_exceeds_supply_counterexample :
    Reachable (((Erc20.new 1 100).approve 1 2 200).state) ∧
    ∃ p ∈ (((Erc20.new 1 100).approve 1 2 200).state).allowances,
      (((Erc20.new 1 100).approve 1 2 200).state).total_supply < p.2 :=
  ⟨Reachable.step_approve 1 2 200 (Reachable.init 1 100 (by decide)), by decide⟩

/-- C2 (amended): in every reachable state, every entry of the balances
mapping is at least 0 and at most `total_supply`, and every entry of the
allowances mapping is at least 0 (but allowance entries may exceed
`total_supply`). -/
theorem C2_stored_amounts_amended (s : Erc20) (h : Reachable s) :
    (∀ p ∈ s.balances, 0 ≤ p.2 ∧ p.2 ≤ s.total_supply) ∧
    (∀ p ∈ s.allowances, 0 ≤ p.2) := by
  refine ⟨fun p hp => ⟨Nat.zero_le _, ?_⟩, fun p _ => Nat.zero_le _⟩
  have hle : p.2 ≤ sumB s.balances := mem_le_sumB (show (p.1, p.2) ∈ s.balances from hp)
  rw [(reachable_inv h).sum_eq] at hle
  exact hle

/-- C2 witness: the amended bound evaluated on the concrete reachable state
after constructing with supply 100 and transferring 30. -/
theorem C2_stored_amounts_amended_witness :
    (∀ p ∈ (((Erc20.new 1 100).transfer 1 2 30).state).balances,
      0 ≤ p.2 ∧ p.2 ≤ (((Erc20.new 1 100).transfer 1 2 30).state).total_supply) ∧
    (∀ p ∈ (((Erc20.new 1 100).transfer 1 2 30).state).allowances, 0 ≤ p.2) :=
  C2_stored_amounts_amended _
    (Reachable.step_transfer 1 2 30 (Reachable.init 1 100 (by decide)))

/-- C3: whenever `transfer` or `transfer_from` returns an error
(`InsufficientBalance` or `InsufficientAllowance`), the resulting state is
identical to the prior state. -/
theorem C3_failed_transfer_state_unchanged (s : Erc20) (caller f t : AccountId)
    (v : Nat) (e : Error) (s' : Erc20) :
    (s.transfer caller t v = .err e s' → s' = s) ∧
    (s.transfer_from caller f t v = .err e s' → s' = s) := by
  constructor
  · intro h
    exact ((tft_err_iff s caller t v e s').mp h).2.2
  · intro h
    rcases (tf_err_iff s caller f t v e s').mp h with ⟨_, _, hs⟩ | ⟨_, _, _, hs⟩ <;>
      exact hs

/-- C4: `transfer(caller, to, value)` returns `Err(InsufficientBalance)` iff
`balance_of(caller) < value` (so `value = 0` always succeeds), and on success
with `caller ≠ to` the caller's balance decreases by exactly `value` while
`to`'s balance increases by exactly `value`. The two bounds record that the
prior balances are `u128` values. -/
theorem C4_transfer_spec (s : Erc20) (c t : AccountId) (v : Nat)
    (hc : s.balance_of c < U128) (ht : s.balance_of t < U128) :
    (s.transfer c t v = .err .InsufficientBalance s ↔ s.balance_of c < v) ∧
    (v = 0 → ∃ s', s.transfer c t v = .ok s') ∧
    (∀ s', c ≠ t → s.transfer c t v = .ok s' →
      s'.balance_of c + v = s.balance_of c ∧ s'.balance_of t = s.balance_of t + v) := by
  refine ⟨?_, ?_, ?_⟩
  · rw [show s.transfer c t v = s.transfer_from_to c t v from rfl, tft_err_iff]
    constructor
    · rintro ⟨hlt, _, _⟩
      exact hlt
    · intro hlt
      exact ⟨hlt, rfl, rfl⟩
  · intro hv
    subst hv
    have hnl : ¬ s.balance_of_impl c < 0 := Nat.not_lt_of_ge (Nat.zero_le _)
    have htb : getD0 (minsert s.balances c (s.balance_of_impl c - 0)) t + 0 < U128 := by
      by_cases hct : t = c
      · subst hct
        rw [getD0_minsert_self]
        simpa [Erc20.balance_of_impl, Erc20.balance_of] using hc
      · rw [getD0_minsert_ne _ _ hct]
        simpa [Erc20.balance_of, getD0] using ht
    exact ⟨_, (tft_ok_iff s c t 0 _).mpr ⟨hnl, htb, rfl⟩⟩
  · intro s' hct hok
    rcases (tft_ok_iff s c t v s').mp hok with ⟨hnl, _, hs'⟩
    have hv : v ≤ s.balance_of_impl c := Nat.le_of_not_lt hnl
    have htc : t ≠ c := fun hh => hct hh.symm
    have htb : getD0 (minsert s.balances c (s.balance_of_impl c - v)) t
        = getD0 s.balances t := getD0_minsert_ne _ _ htc
    constructor
    · have : s'.balance_of c
          = getD0 (minsert s.balances c (s.balance_of_impl c - v)) c := by
        rw [hs']
        exact getD0_minsert_ne _ _ hct
      rw [this, getD0_minsert_self]
      have : s.balance_of c = s.balance_of_impl c := rfl
      rw [this]
      exact Nat.sub_add_cancel hv
    · have : s'.balance_of t
          = getD0 (minsert s.balances c (s.balance_of_impl c - v)) t + v := by
        rw [hs']
        exact getD0_minsert_self _ _ _
      rw [this, htb]
      rfl

/-- C4 witness: the transfer specification evaluated at the freshly
constructed ledger with supply 100 for account 1, transferring to account 2
with value 30. -/
theorem C4_transfer_spec_witness :
    ((Erc20.new 1 100).transfer 1 2 30 = .err .InsufficientBalance (Erc20.new 1 100) ↔
      (Erc20.new 1 100).balance_of 1 < 30) ∧
    (30 = 0 → ∃ s', (Erc20.new 1 100).transfer 1 2 30 = .ok s') ∧
    (∀ s', (1 : AccountId) ≠ 2 → (Erc20.new 1 100).transfer 1 2 30 = .ok s' →
      s'.balance_of 1 + 30 = (Erc20.new 1 100).balance_of 1 ∧
      s'.balance_of 2 = (Erc20.new 1 100).balance_of 2 + 30) :=
  C4_transfer_spec (Erc20.new 1 100) 1 2 30 (by decide) (by decide)

/-- C5: from a reachable state, when the spender's allowance and the source
balance both cover `value`, `transfer_from` succeeds, performs exactly the
balance changes of `transfer(from, to, value)`, and decrements the stored
allowance by exactly `value`. -/
theorem C5_transfer_from_success (s : Erc20) (c f t : AccountId) (v : Nat)
    (hreach : Reachable s) (hal : v ≤ s.allowance f c) (hfb : v ≤ s.balance_of f) :
    ∃ s', s.transfer_from c f t v = .ok s' ∧
      s'.balances = (s.transfer f t v).state.balances ∧
      s'.allowance f c + v = s.allowance f c := by
  have hinv := reachable_inv hreach
  have hnl : ¬ s.balance_of_impl f < v := Nat.not_lt_of_ge hfb
  have hnal : ¬ s.allowance_impl f c < v := Nat.not_lt_of_ge hal
  have h2 : getD0 (minsert s.balances f (s.balance_of_impl f - v)) t + v < U128 := by
    by_contra h2
    exact tft_no_panic hinv f t v s
      ((tft_panic_iff s f t v s).mpr ⟨hnl, h2, rfl⟩)
  have hok := (tft_ok_iff s f t v _).mpr ⟨hnl, h2, rfl⟩
  refine ⟨_, (tf_ok_iff s c f t v _).mpr ⟨hnal, _, hok, rfl⟩, ?_, ?_⟩
  · rw [show s.transfer f t v = s.transfer_from_to f t v from rfl, hok]
    rfl
  · show getD0 (minsert s.allowances (f, c) (s.allowance_impl f c - v)) (f, c) + v
        = s.allowance f c
    rw [getD0_minsert_self]
    exact Nat.sub_add_cancel hal

/-- C5 witness: after constructing with supply 100 for account 1 and
approving 20 for spender 2, a delegated transfer of 10 to account 3
succeeds, moves the balances as `transfer` would, and leaves allowance 10. -/
theorem C5_transfer_from_success_witness :
    ∃ s', (((Erc20.new 1 100).approve 1 2 20).state).transfer_from 2 1 3 10 = .ok s' ∧
      s'.balances = ((((Erc20.new 1 100).approve 1 2 20).state).transfer 1 3 10).state.balances ∧
      s'.allowance 1 2 + 10 = (((Erc20.new 1 100).approve 1 2 20).state).allowance 1 2 :=
  C5_transfer_from_success _ 2 1 3 10
    (Reachable.step_approve 1 2 20 (Reachable.init 1 100 (by decide)))
    (by decide) (by decide)

/-- C6: `transfer_from` fails with `InsufficientAllowance` exactly when the
allowance is below `value` (the allowance check comes first: that error is
reported even when the balance is also short); otherwise it fails with
`InsufficientBalance` exactly when the source balance is below `value`, and
in that case the allowance entry is not decremented. -/
theorem C6_transfer_from_error_cases (s : Erc20) (c f t : AccountId) (v : Nat) :
    (s.transfer_from c f t v = .err .InsufficientAllowance s ↔ s.allowance f c < v) ∧
    (s.transfer_from c f t v = .err .InsufficientBalance s ↔
      (¬ s.allowance f c < v ∧ s.balance_of f < v)) ∧
    (¬ s.allowance f c < v → s.balance_of f < v →
      (s.transfer_from c f t v).state.allowance f c = s.allowance f c) := by
  have hIA := tf_err_iff s c f t v .InsufficientAllowance s
  have hIB := tf_err_iff s c f t v .InsufficientBalance s
  refine ⟨?_, ?_, ?_⟩
  · rw [hIA]
    constructor
    · rintro (⟨hlt, _, _⟩ | ⟨_, _, he, _⟩)
      · exact hlt
      · cases he
    · intro hlt
      exact Or.inl ⟨hlt, rfl, rfl⟩
  · rw [hIB]
    constructor
    · rintro (⟨_, he, _⟩ | ⟨hnl, hfb, _, _⟩)
      · cases he
      · exact ⟨hnl, hfb⟩
    · rintro ⟨hnl, hfb⟩
      exact Or.inr ⟨hnl, hfb, rfl, rfl⟩
  · intro hnl hfb
    have : s.transfer_from c f t v = .err .InsufficientBalance s :=
      hIB.mpr (Or.inr ⟨hnl, hfb, rfl, rfl⟩)
    rw [this]
    rfl

/-- C7: `approve` always returns `Ok` (no balance check) and afterwards the
stored allowance of `(caller, spender)` is exactly the requested value,
overwriting any previously approved value rather than adding to it. -/
theorem C7_approve_always_overwrites (s : Erc20) (c sp : AccountId) (v : Nat) :
    (∃ s', s.approve c sp v = .ok s') ∧
    (s.approve c sp v).state.allowance c sp = v ∧
    (∀ w, ((s.approve c sp w).state.approve c sp v).state.allowance c sp = v) := by
  refine ⟨⟨_, rfl⟩, ?_, fun w => ?_⟩
  · show getD0 (minsert s.allowances (c, sp) v) (c, sp) = v
    exact getD0_minsert_self _ _ _
  · show getD0 (minsert (minsert s.allowances (c, sp) w) (c, sp) v) (c, sp) = v
    exact getD0_minsert_self _ _ _

/-- C8: amount arithmetic in `transfer`/`transfer_from` is checked (per the
spec-modelled build profile): an addition that would exceed the `u128` range
makes the shared transfer step trap with the prior state rather than store a
wrapped balance; on success the stored destination balance is the exact
unwrapped sum; and from a reachable state the addition never overflows at
all. -/
theorem C8_amount_arithmetic_checked (s : Erc20) (f t : AccountId) (v : Nat) :
    (¬ s.balance_of f < v →
      ¬ getD0 (minsert s.balances f (s.balance_of f - v)) t + v < U128 →
      s.transfer_from_to f t v = .panic s) ∧
    (∀ s', s.transfer_from_to f t v = .ok s' →
      getD0 (minsert s.balances f (s.balance_of f - v)) t + v < U128 ∧
      s'.balance_of t = getD0 (minsert s.balances f (s.balance_of f - v)) t + v) ∧
    (Reachable s → ∀ s'', s.transfer_from_to f t v ≠ .panic s'') := by
  refine ⟨?_, ?_, ?_⟩
  · intro hnl hov
    exact (tft_panic_iff s f t v s).mpr ⟨hnl, hov, rfl⟩
  · intro s' hok
    rcases (tft_ok_iff s f t v s').mp hok with ⟨_, hlt, hs'⟩
    refine ⟨hlt, ?_⟩
    rw [hs']
    exact getD0_minsert_self _ _ _
  · intro hreach s''
    exact tft_no_panic (reachable_inv hreach) f t v s''

/-- C9: a self-transfer `transfer(caller, caller, value)` succeeds exactly
when the caller's balance covers `value`, and on success every balance
(including the caller's own) is unchanged. The bound records that the prior
balance is a `u128` value. -/
theorem C9_self_transfer_noop (s : Erc20) (c : AccountId) (v : Nat)
    (hc : s.balance_of c < U128) :
    ((∃ s', s.transfer c c v = .ok s') ↔ v ≤ s.balance_of c) ∧
    (∀ s' a, s.transfer c c v = .ok s' → s'.balance_of a = s.balance_of a) := by
  have hself : getD0 (minsert s.balances c (s.balance_of_impl c - v)) c
      = s.balance_of_impl c - v := getD0_minsert_self _ _ _
  constructor
  · constructor
    · rintro ⟨s', hok⟩
      exact Nat.le_of_not_lt ((tft_ok_iff s c c v s').mp hok).1
    · intro hv
      have hv' : v ≤ s.balance_of_impl c := hv
      have hnl : ¬ s.balance_of_impl c < v := Nat.not_lt_of_ge hv
      have hlt : getD0 (minsert s.balances c (s.balance_of_impl c - v)) c + v < U128 := by
        rw [hself, Nat.sub_add_cancel hv']
        exact hc
      exact ⟨_, (tft_ok_iff s c c v _).mpr ⟨hnl, hlt, rfl⟩⟩
  · intro s' a hok
    rcases (tft_ok_iff s c c v s').mp hok with ⟨hnl, _, hs'⟩
    have hv : v ≤ s.balance_of_impl c := Nat.le_of_not_lt hnl
    have hval : getD0 (minsert s.balances c (s.balance_of_impl c - v)) c + v
        = s.balance_of_impl c := by
      rw [hself]
      exact Nat.sub_add_cancel hv
    by_cases hac : a = c
    · subst hac
      have : s'.balance_of a
          = getD0 (minsert s.balances a (s.balance_of_impl a - v)) a + v := by
        rw [hs']
        exact getD0_minsert_self _ _ _
      rw [this, hval]
      rfl
    · have : s'.balance_of a
          = getD0 (minsert s.balances c (s.balance_of_impl c - v)) a := by
        rw [hs']
        exact getD0_minsert_ne _ _ hac
      rw [this, getD0_minsert_ne _ _ hac]
      rfl

/-- C9 witness: the self-transfer specification evaluated at the freshly
constructed ledger with supply 100 for account 1, self-transferring 40. -/
theorem C9_self_transfer_noop_witness :
    ((∃ s', (Erc20.new 1 100).transfer 1 1 40 = .ok s') ↔
      40 ≤ (Erc20.new 1 100).balance_of 1) ∧
    (∀ s' a, (Erc20.new 1 100).transfer 1 1 40 = .ok s' →
      s'.balance_of a = (Erc20.new 1 100).balance_of a) :=
  C9_self_transfer_noop (Erc20.new 1 100) 1 40 (by decide)

/-- C10: when the caller of `transfer_from` is the owner itself, the call
still requires the stored self-allowance `allowances[(owner, owner)]` to
cover `value` — failing with `InsufficientAllowance` otherwise, regardless
of the owner's balance — and on success that self-allowance is decremented
by exactly `value`: owning the balance grants no implicit allowance. -/
theorem C10_owner_needs_self_allowance (s : Erc20) (owner t : AccountId) (v : Nat) :
    (s.allowance owner owner < v →
      s.transfer_from owner owner t v = .err .InsufficientAllowance s) ∧
    (∀ s', s.transfer_from owner owner t v = .ok s' →
      s'.allowance owner owner + v = s.allowance owner owner) := by
  constructor
  · intro hlt
    exact (tf_err_iff s owner owner t v .InsufficientAllowance s).mpr
      (Or.inl ⟨hlt, rfl, rfl⟩)
  · intro s' hok
    rcases (tf_ok_iff s owner owner t v s').mp hok with ⟨hnl, s1, _, hs'⟩
    have : s'.allowance owner owner
        = getD0 (minsert s1.allowances (owner, owner) (s.allowance_impl owner owner - v))
            (owner, owner) := by
      rw [hs']
      rfl
    rw [this, getD0_minsert_self]
    exact Nat.sub_add_cancel (Nat.le_of_not_lt hnl)

end Erc20Spec
